import Mathlib

/-!
Shallow embedding of `skin_prob.py`: a cache-aware fetcher, a catalog
lookup, item-name sanitization, a cleaned odds dictionary, a weighted
Monte-Carlo simulation and the profitability report.  Monetary and
probability arithmetic is embedded over `ℚ` (Python floats formatted with
two decimals are modelled as exact decimal rounding on `ℚ`); the random
source of the simulation is an explicit stream of uniform draws.
-/

namespace SkinProb

/-! ### Constants (lines 5-13 of the source) -/

def CACHE_TIME_HOURS : ℚ := 2

def TESTED_SECTION : String := "Crazy Moves"

def TESTED_CASE : String := "Who\u2019s crazy?"

def TESTED_CASE_COUNT : Nat := 1000

def ODDS_URL : String := "https://gate.skin.club/apiv2/odds/"

/-! ### Two-decimal formatting

`float(f"{x:.2f}")` and `round(x, 2)` both take a value to the nearest
multiple of `1/100`; every input they receive in this program is an exact
multiple of `1/100` (integer cents divided by 100), so the tie-breaking
mode never matters. -/

def round2 (q : ℚ) : ℚ := (round (q * 100) : ℤ) / 100

/-- `float(f"{price / 100:.2f}")` applied to an integer number of cents
(source lines 68 and 95). -/
def formatPrice (cents : ℤ) : ℚ := round2 ((cents : ℚ) / 100)

/-! ### Cache-aware fetch (lines 25-29 and 46-53 / 74-81) -/

/-- `check_file_mtime`: age of the cached file in hours. -/
def check_file_mtime (now file_mtime : ℚ) : ℚ := (now - file_mtime) / 3600

/-- One cache-aware fetch step.  Returns whether a network request was
issued, paired with the resulting on-disk content: the (pretty-printed)
remote response when a request is made, the old cached content otherwise.
`file_exists` models `os.path.exists`. -/
def fetchStep (file_exists : Bool) (now file_mtime : ℚ)
    (remote cached : String) : Bool × String :=
  if file_exists then
    if check_file_mtime now file_mtime > CACHE_TIME_HOURS then (true, remote)
    else (false, cached)
  else (true, remote)

/-! ### Catalog data model and lookup (lines 59-71) -/

structure Generation where
  uid : String
deriving DecidableEq

structure CaseItem where
  title : String
  price : ℤ
  last_successful_generation : Generation
deriving DecidableEq

structure CatalogSection where
  name : String
  cases : List CaseItem
deriving DecidableEq

/-- The inner `for case in section.get("cases")` loop: the first case whose
title matches, if any (the `break` exits only this inner loop). -/
def sectionHit (caseName : String) (sec : CatalogSection) : Option CaseItem :=
  sec.cases.find? (fun c => c.title == caseName)

/-- The double loop of lines 59-66.  `found_uid` starts as `None`
(`(none, _)`) and `case_price` starts unbound (`(_, none)`); every
name-matching section that contains a title-matching case overwrites both
(the `break` leaves the outer loop running). -/
def lookupLoop (sectionName caseName : String)
    (sections : List CatalogSection) : Option String × Option ℤ :=
  sections.foldl
    (fun acc sec =>
      if sec.name == sectionName then
        match sectionHit caseName sec with
        | some c => (some c.last_successful_generation.uid, some c.price)
        | none => acc
      else acc)
    (none, none)

/-- Python errors the pipeline can raise, plus the `NotFound` error the
specification demands for a missing case (the code never raises it). -/
inductive PyError
  | nameError
  | notFound
deriving DecidableEq

/-- Line 68: `formatted_case_price = float(f"{case_price / 100:.2f}")`.
Referencing `case_price` while it is unbound raises `NameError`. -/
def formatted_case_price (sections : List CatalogSection) : Except PyError ℚ :=
  match (lookupLoop TESTED_SECTION TESTED_CASE sections).2 with
  | none => Except.error PyError.nameError
  | some p => Except.ok (formatPrice p)

/-- Python string interpolation of an optional value (`None` prints as
`"None"`). -/
def pyReprOpt : Option String → String
  | none => "None"
  | some s => s

/-- Line 71: `odds_url = f"{ODDS_URL}{found_uid}/contents"`, reached only
after line 68 succeeded. -/
def odds_url (sections : List CatalogSection) : Except PyError String :=
  match formatted_case_price sections with
  | Except.error e => Except.error e
  | Except.ok _ =>
      Except.ok (ODDS_URL
        ++ pyReprOpt (lookupLoop TESTED_SECTION TESTED_CASE sections).1
        ++ "/contents")

/-! ### Name sanitization (line 94) -/

/-- Characters Python's `str.strip` removes, restricted to the ASCII range
(the only characters that survive the preceding ASCII filter). -/
def pyIsSpace (c : Char) : Bool :=
  (9 ≤ c.toNat && c.toNat ≤ 13) || (28 ≤ c.toNat && c.toNat ≤ 32)

/-- `.encode("ascii", "ignore").decode()`: drop every character that is not
representable in ASCII. -/
def asciiIgnore (s : List Char) : List Char := s.filter (fun c => c.toNat < 128)

/-- `.strip()`: drop whitespace from the front, then from the back. -/
def pyStrip (s : List Char) : List Char :=
  ((s.dropWhile pyIsSpace).reverse.dropWhile pyIsSpace).reverse

/-- Line 94: `clean_name = raw_name.encode("ascii", "ignore").decode().strip()`. -/
def sanitize (s : String) : String := String.mk (pyStrip (asciiIgnore s.data))

/-! ### Cleaned odds dictionary (lines 87-111) -/

/-- One raw drop entry of the odds listing (`item.market_hash_name`,
`fixed_price` in integer cents, `chance_percent`). -/
structure RawItem where
  market_hash_name : String
  fixed_price : ℤ
  chance_percent : ℚ
deriving DecidableEq

/-- One value of `filtered_odds_json`: formatted price and chance. -/
structure Entry where
  price : ℚ
  chance : ℚ
deriving DecidableEq

/-- Lines 94-95 applied to one raw entry. -/
def cleanEntry (it : RawItem) : Entry :=
  { price := formatPrice it.fixed_price, chance := it.chance_percent }

/-- Python `dict` assignment `d[k] = v`: replace the value at an existing
key in place, otherwise append the new binding at the end. -/
def dictInsert : List (String × Entry) → String → Entry → List (String × Entry)
  | [], k, v => [(k, v)]
  | p :: d, k, v => if p.1 == k then (k, v) :: d else p :: dictInsert d k v

/-- Python `dict` lookup `d[k]` (unique keys: first match). -/
def dictLookup (d : List (String × Entry)) (k : String) : Option Entry :=
  (d.find? (fun p => p.1 == k)).map (fun p => p.2)

/-- The loop of lines 87-100 building `filtered_odds_json`. -/
def buildFiltered (items : List RawItem) : List (String × Entry) :=
  items.foldl
    (fun acc it => dictInsert acc (sanitize it.market_hash_name) (cleanEntry it))
    []

/-! ### Weighted simulation (lines 113-120)

`random.choices(items_list, weights=chances_list, k=1)` draws one uniform
`x` in `[0, total)` and selects the item at the first index whose running
cumulative weight exceeds `x` (bisection over the cumulative sums).
`choiceIdx` is that selection function with the uniform draw explicit. -/

def choiceIdx : List ℚ → ℚ → Nat
  | [], _ => 0
  | w :: ws, x => if x < w then 0 else choiceIdx ws (x - w) + 1

/-- The simulation loop: one trial per uniform draw in the stream, each
trial an independent call of the same single-draw selection. -/
def simulate (ws : List ℚ) : List ℚ → List Nat
  | [] => []
  | u :: us => choiceIdx ws u :: simulate ws us

/-! ### Reporting (lines 126-151) -/

/-- Lines 126-128: `profit += filtered_odds_json[item]["price"]` over the
drawn items; a missing key raises (`none`). -/
def profit (d : List (String × Entry)) (results_list : List String) : Option ℚ :=
  results_list.foldlM
    (fun acc item => (dictLookup d item).map (fun e => acc + e.price)) 0

/-- Line 129: `spendings = formatted_case_price * TESTED_CASE_COUNT`. -/
def spendings (case_price : ℚ) (count : Nat) : ℚ := case_price * count

/-- Lines 131-133: `expected_return += (chance / 100) * price` over the
cleaned odds dictionary. -/
def expected_return (d : List (String × Entry)) : ℚ :=
  d.foldl (fun acc p => acc + p.2.chance / 100 * p.2.price) 0

/-- Line 135. -/
def expected_profit (d : List (String × Entry)) (case_price : ℚ) : ℚ :=
  expected_return d - case_price

/-- Line 136: `(expected_return / formatted_case_price) * 100`. -/
def return_ratio_percent (d : List (String × Entry)) (case_price : ℚ) : ℚ :=
  expected_return d / case_price * 100

/-! ### Output-time rounding (lines 143-148): the summary fields. -/

def summary_total_spent (sp : ℚ) : ℚ := round2 sp

def summary_total_earned (p : ℚ) : ℚ := round2 p

def summary_net_profit (p sp : ℚ) : ℚ := round2 (p - sp)

def summary_expected_return (d : List (String × Entry)) : ℚ :=
  round2 (expected_return d)

def summary_expected_profit (d : List (String × Entry)) (case_price : ℚ) : ℚ :=
  round2 (expected_profit d case_price)

def summary_return_ratio_percent (d : List (String × Entry)) (case_price : ℚ) : ℚ :=
  round2 (return_ratio_percent d case_price)

/-! ### Fixtures -/

/-- A catalog without the configured section. -/
def noMatchCatalog : List CatalogSection := [{ name := "Other", cases := [] }]

/-- The reporting fixture: A costs 1.00 with chance 90 %, B costs 10.00
with chance 10 %. -/
def fixtureOdds : List (String × Entry) :=
  [("A", { price := 1, chance := 90 }), ("B", { price := 10, chance := 10 })]

/-! ### Specification-side description of the lookup (from the spec's
words, to be compared with `lookupLoop`): the result comes from the last
section, in catalog order, whose name matches and which contains a
title-matching case; within that section the first title-matching case
wins. -/

def lookupSpec (sectionName caseName : String)
    (sections : List CatalogSection) : Option String × Option ℤ :=
  match (sections.filter
      (fun s => s.name == sectionName && (sectionHit caseName s).isSome)).getLast? with
  | none => (none, none)
  | some s =>
      match sectionHit caseName s with
      | some c => (some c.last_successful_generation.uid, some c.price)
      | none => (none, none)

/-! ### Helper lemmas -/

/-- Two-decimal formatting is the identity on an integer number of cents:
no rounding error is introduced before the output stage. -/
lemma formatPrice_exact (c : ℤ) : formatPrice c = (c : ℚ) / 100 := by
  unfold formatPrice round2
  have h : ((c : ℚ) / 100) * 100 = (c : ℚ) := by
    field_simp
  rw [h, round_intCast]

lemma find?_reverse_eq (p : α → Bool) (l : List α) :
    l.reverse.find? p = (l.filter p).getLast? := by
  induction l with
  | nil => rfl
  | cons x t ih =>
      rw [List.reverse_cons, List.find?_append, ih, List.filter_cons]
      by_cases hx : p x
      · rw [if_pos hx,
          show x :: t.filter p = [x] ++ t.filter p from rfl, List.getLast?_append]
        simp [List.find?_cons_of_pos _ hx]
      · rw [if_neg hx]
        simp [List.find?_cons_of_neg _ hx]

lemma lookupLoop_go (sn cn : String) (sections : List CatalogSection)
    (acc : Option String × Option ℤ) :
    sections.foldl
      (fun acc sec =>
        if sec.name == sn then
          match sectionHit cn sec with
          | some c => (some c.last_successful_generation.uid, some c.price)
          | none => acc
        else acc)
      acc
    = match sections.reverse.find?
        (fun s => s.name == sn && (sectionHit cn s).isSome) with
      | none => acc
      | some s =>
          match sectionHit cn s with
          | some c => (some c.last_successful_generation.uid, some c.price)
          | none => (none, none) := by
  induction sections generalizing acc with
  | nil => rfl
  | cons s t ih =>
      simp only [List.foldl_cons, ih, List.reverse_cons, List.find?_append]
      cases hfind : t.reverse.find? (fun s => s.name == sn && (sectionHit cn s).isSome) with
      | some s' => simp
      | none =>
          simp only [Option.none_or]
          by_cases hname : s.name == sn
          · cases hhit : sectionHit cn s with
            | some c => simp [List.find?_cons, hname, hhit]
            | none => simp [List.find?_cons, hname, hhit]
          · simp [List.find?_cons, hname]

lemma lookupLoop_eq_spec (sn cn : String) (sections : List CatalogSection) :
    lookupLoop sn cn sections = lookupSpec sn cn sections := by
  unfold lookupLoop lookupSpec
  rw [lookupLoop_go, ← find?_reverse_eq]

lemma lookupLoop_no_match (sn cn : String) (sections : List CatalogSection)
    (h : ∀ s ∈ sections, s.name = sn → sectionHit cn s = none) :
    lookupLoop sn cn sections = (none, none) := by
  rw [lookupLoop_eq_spec]
  unfold lookupSpec
  have hfil : sections.filter (fun s => s.name == sn && (sectionHit cn s).isSome) = [] := by
    rw [List.filter_eq_nil_iff]
    intro s hs
    simp only [Bool.and_eq_true, beq_iff_eq, Option.isSome_iff_exists, not_and]
    rintro heq ⟨c, hc⟩
    rw [h s hs heq] at hc
    exact Option.noConfusion hc
  rw [hfil]
  rfl

/-! ### Claim theorems -/

/-- C5: for every cached file and the 2-hour TTL, no network request is
made when the file exists and its age is within the freshness window, and
the HTTP GET is performed (the file becoming the fetched response) when
the file is absent or its age exceeds the window; with mtime = now − 1 hour
no call is issued, with mtime = now − 3 hours one is. -/
theorem C5_cache_freshness (now file_mtime : ℚ) (remote cached : String) :
    fetchStep false now file_mtime remote cached = (true, remote)
    ∧ (check_file_mtime now file_mtime ≤ CACHE_TIME_HOURS →
        fetchStep true now file_mtime remote cached = (false, cached))
    ∧ (CACHE_TIME_HOURS < check_file_mtime now file_mtime →
        fetchStep true now file_mtime remote cached = (true, remote))
    ∧ fetchStep true now (now - 3600) remote cached = (false, cached)
    ∧ fetchStep true now (now - 3 * 3600) remote cached = (true, remote) := by
  have h1 : check_file_mtime now (now - 3600) = 1 := by
    unfold check_file_mtime; ring
  have h3 : check_file_mtime now (now - 10800) = 3 := by
    unfold check_file_mtime; ring
  refine ⟨rfl, ?_, ?_, ?_, ?_⟩
  · intro h
    simp [fetchStep, not_lt.mpr h]
  · intro h
    simp [fetchStep, h]
  · norm_num [fetchStep, h1, CACHE_TIME_HOURS]
  · norm_num [fetchStep, h3, CACHE_TIME_HOURS]

/-- Witness for C5 at concrete inputs: a missing file triggers the
request, a 10-hour-old file triggers it, a 1-hour-old file does not. -/
theorem C5_cache_freshness_witness :
    fetchStep false 36000 0 ("r") ("c") = (true, "r")
    ∧ fetchStep true 36000 0 ("r") ("c") = (true, "r")
    ∧ fetchStep true 36000 (36000 - 3600) ("r") ("c") = (false, "c") := by
  obtain ⟨a, _, c, d, _⟩ := C5_cache_freshness 36000 0 ("r") ("c")
  refine ⟨a, c ?_, d⟩
  unfold check_file_mtime CACHE_TIME_HOURS
  norm_num

/-- C3 (behaviour at the failing input): on a catalog without the
configured section the pipeline raises `NameError` at the price-formatting
step — it never reports the `NotFound` error the specification demands. -/
theorem C3_notfound_never_reported :
    formatted_case_price noMatchCatalog = Except.error PyError.nameError
    ∧ PyError.nameError ≠ PyError.notFound := by
  constructor
  · rfl
  · decide

/-- C4 counterexample: on a catalog with no match the identifier does
remain `None` after the loop, but execution does not reach the odds-URL
construction: no URL is ever produced (the run dies at the price-formatting
step), refuting the claim that the pipeline silently proceeds to build an
invalid request. -/
theorem C4_counterexample :
    (lookupLoop TESTED_SECTION TESTED_CASE noMatchCatalog).1 = none
    ∧ (odds_url noMatchCatalog).toOption = none := by
  constructor
  · rfl
  · rfl

/-- C4 (amended): for every catalog in which no section with the configured
name contains a case with the configured title, the identifier remains
unset (`none`) after the lookup loop, and the run then fails with an
unbound-local `NameError` at the case-price formatting step, before the
odds-URL construction. -/
theorem C4_unset_identifier_amended (sections : List CatalogSection)
    (h : ∀ s ∈ sections, s.name = TESTED_SECTION → sectionHit TESTED_CASE s = none) :
    lookupLoop TESTED_SECTION TESTED_CASE sections = (none, none)
    ∧ formatted_case_price sections = Except.error PyError.nameError
    ∧ odds_url sections = Except.error PyError.nameError := by
  have h0 := lookupLoop_no_match TESTED_SECTION TESTED_CASE sections h
  refine ⟨h0, ?_, ?_⟩
  · unfold formatted_case_price
    rw [h0]
  · unfold odds_url formatted_case_price
    rw [h0]

/-- Witness for C4 (amended) at the concrete no-match catalog. -/
theorem C4_unset_identifier_amended_witness :
    lookupLoop TESTED_SECTION TESTED_CASE noMatchCatalog = (none, none)
    ∧ formatted_case_price noMatchCatalog = Except.error PyError.nameError
    ∧ odds_url noMatchCatalog = Except.error PyError.nameError :=
  C4_unset_identifier_amended noMatchCatalog (by decide)

/-- C6: for every catalog whose only section named "S" holds, after cases
with other titles, the case "C" with identifier "U123" and price 500 cents,
the lookup returns identifier "U123" and price 500, and the cents value
formats to the decimal price 5.00. -/
theorem C6_catalog_lookup (pre post : List CatalogSection) (cs1 cs2 : List CaseItem)
    (hpre : ∀ s ∈ pre, s.name ≠ "S") (hpost : ∀ s ∈ post, s.name ≠ "S")
    (hcs1 : ∀ c ∈ cs1, c.title ≠ "C") :
    lookupLoop ("S") ("C")
      (pre ++ (⟨"S", cs1 ++ (⟨"C", 500, ⟨"U123"⟩⟩ : CaseItem) :: cs2⟩ : CatalogSection) :: post)
      = (some "U123", some 500)
    ∧ formatPrice 500 = 5 := by
  constructor
  · rw [lookupLoop_eq_spec]
    unfold lookupSpec
    have hfpre : pre.filter (fun s => s.name == "S" && (sectionHit ("C") s).isSome) = [] := by
      rw [List.filter_eq_nil_iff]
      intro s hs
      simp [hpre s hs]
    have hfpost : post.filter (fun s => s.name == "S" && (sectionHit ("C") s).isSome) = [] := by
      rw [List.filter_eq_nil_iff]
      intro s hs
      simp [hpost s hs]
    have hhit : sectionHit ("C")
        (⟨"S", cs1 ++ (⟨"C", 500, ⟨"U123"⟩⟩ : CaseItem) :: cs2⟩ : CatalogSection)
        = some (⟨"C", 500, ⟨"U123"⟩⟩ : CaseItem) := by
      unfold sectionHit
      have hnone : cs1.find? (fun c => c.title == "C") = none := by
        rw [List.find?_eq_none]
        intro c hc
        simp [hcs1 c hc]
      simp [List.find?_append, hnone]
    simp [List.filter_append, List.filter_cons, hfpre, hfpost, hhit]
  · unfold formatPrice round2
    norm_num

/-- Witness for C6 at the one-section fixture catalog. -/
theorem C6_catalog_lookup_witness :
    lookupLoop ("S") ("C") [⟨"S", [⟨"C", 500, ⟨"U123"⟩⟩]⟩]
      = (some "U123", some 500)
    ∧ formatPrice 500 = 5 := by
  have h := C6_catalog_lookup [] [] [] []
    (fun s hs => nomatch hs) (fun s hs => nomatch hs) (fun c hc => nomatch hc)
  simpa using h

/-- C10: for every configured pair of names and every catalog, the lookup
result is the first title-matching case of the last name-matching section
that contains one (later sections overwrite earlier matches, the inner
break only exits the per-section case loop); in particular a catalog with
two sections named "S" yields the uid and price of the first "C"-titled
case of the second section. -/
theorem C10_last_section_wins (sn cn : String) (sections : List CatalogSection) :
    lookupLoop sn cn sections = lookupSpec sn cn sections
    ∧ lookupLoop ("S") ("C")
        [⟨"S", [⟨"C", 100, ⟨"U1"⟩⟩]⟩,
         ⟨"S", [⟨"C", 200, ⟨"U2"⟩⟩, ⟨"C", 300, ⟨"U3"⟩⟩]⟩]
        = (some "U2", some 200) := by
  constructor
  · exact lookupLoop_eq_spec sn cn sections
  · rfl

/-! ### Sanitization lemmas -/

lemma head?_dropWhile_false (p : α → Bool) (l : List α) (c : α)
    (h : (l.dropWhile p).head? = some c) : p c = false := by
  have hm := List.head?_dropWhile_not p l
  rw [h] at hm
  exact hm

lemma getLast?_dropWhile_of_ne_nil (p : α → Bool) (l : List α)
    (h : l.dropWhile p ≠ []) : (l.dropWhile p).getLast? = l.getLast? := by
  obtain ⟨t, ht⟩ := List.dropWhile_suffix (l := l) p
  conv_rhs => rw [← ht]
  rw [List.getLast?_append]
  cases hb : (l.dropWhile p).getLast? with
  | none => exact absurd (List.getLast?_eq_none_iff.mp hb) h
  | some y => simp

lemma pyStrip_sublist (l : List Char) : List.Sublist (pyStrip l) l := by
  unfold pyStrip
  have h1 := List.dropWhile_sublist (l := l) pyIsSpace
  have h2 := List.dropWhile_sublist (l := (l.dropWhile pyIsSpace).reverse) pyIsSpace
  have h3 := h2.reverse
  rw [List.reverse_reverse] at h3
  exact h3.trans h1

lemma pyStrip_head (l : List Char) (c : Char)
    (h : (pyStrip l).head? = some c) : pyIsSpace c = false := by
  unfold pyStrip at h
  rw [List.head?_reverse] at h
  have hne : (l.dropWhile pyIsSpace).reverse.dropWhile pyIsSpace ≠ [] := by
    intro h0
    rw [h0] at h
    exact Option.noConfusion h
  rw [getLast?_dropWhile_of_ne_nil _ _ hne, List.getLast?_reverse] at h
  exact head?_dropWhile_false _ _ _ h

lemma pyStrip_getLast (l : List Char) (c : Char)
    (h : (pyStrip l).getLast? = some c) : pyIsSpace c = false := by
  unfold pyStrip at h
  rw [List.getLast?_reverse] at h
  exact head?_dropWhile_false _ _ _ h

/-- C7: sanitization keeps only ASCII characters (codepoints below 128),
returns a subsequence of the raw name, leaves no leading or trailing
whitespace, and sends "★ M9 Bayonet ★" to exactly "M9 Bayonet". -/
theorem C7_sanitize (s : String) :
    (sanitize s).data.all (fun c => c.toNat < 128) = true
    ∧ List.Sublist (sanitize s).data s.data
    ∧ (sanitize s).data.head?.all (fun c => !pyIsSpace c) = true
    ∧ (sanitize s).data.getLast?.all (fun c => !pyIsSpace c) = true
    ∧ sanitize ("★ M9 Bayonet ★") = "M9 Bayonet" := by
  refine ⟨?_, ?_, ?_, ?_, by decide⟩
  · rw [List.all_eq_true]
    intro c hc
    have hmem := (pyStrip_sublist (asciiIgnore s.data)).subset hc
    exact (List.mem_filter.mp hmem).2
  · exact (pyStrip_sublist (asciiIgnore s.data)).trans (List.filter_sublist s.data)
  · cases hh : (sanitize s).data.head? with
    | none => rfl
    | some c => simp [pyStrip_head (asciiIgnore s.data) c hh]
  · cases hh : (sanitize s).data.getLast? with
    | none => rfl
    | some c => simp [pyStrip_getLast (asciiIgnore s.data) c hh]

/-! ### Dictionary lemmas -/

lemma dictLookup_insert (d : List (String × Entry)) (k k' : String) (v : Entry) :
    dictLookup (dictInsert d k v) k' = if k' = k then some v else dictLookup d k' := by
  induction d with
  | nil =>
      by_cases h : k' = k
      · simp [dictInsert, dictLookup, h]
      · simp [dictInsert, dictLookup, h, Ne.symm h]
  | cons p d ih =>
      rw [dictInsert]
      by_cases hp : p.1 = k
      · rw [if_pos (by simp [hp])]
        by_cases hk : k' = k
        · simp [dictLookup, hk]
        · simp [dictLookup, hk, Ne.symm hk, hp, List.find?_cons]
      · rw [if_neg (by simp [hp])]
        by_cases hpk : p.1 = k'
        · have hkk : ¬k' = k := fun h => hp (hpk.trans h)
          simp [dictLookup, List.find?_cons, hpk, hkk]
        · simp only [dictLookup, List.find?_cons]
          have hb : (p.1 == k') = false := by simp [hpk]
          simp only [hb]
          exact ih

lemma buildFiltered_go (items : List RawItem) (acc : List (String × Entry)) (k : String) :
    dictLookup
      (items.foldl
        (fun acc it => dictInsert acc (sanitize it.market_hash_name) (cleanEntry it))
        acc) k
    = match items.reverse.find? (fun it => sanitize it.market_hash_name == k) with
      | some it => some (cleanEntry it)
      | none => dictLookup acc k := by
  induction items generalizing acc with
  | nil => rfl
  | cons it t ih =>
      simp only [List.foldl_cons, ih, List.reverse_cons, List.find?_append]
      cases hf : t.reverse.find? (fun it => sanitize it.market_hash_name == k) with
      | some it' => simp
      | none =>
          simp only [Option.none_or]
          by_cases hk : sanitize it.market_hash_name = k
          · simp [List.find?_cons, hk, dictLookup_insert]
          · have : (sanitize it.market_hash_name == k) = false := by simp [hk]
            simp [List.find?_cons, this, dictLookup_insert, Ne.symm hk]

lemma keys_dictInsert (d : List (String × Entry)) (k : String) (v : Entry) :
    (dictInsert d k v).map Prod.fst
    = if (d.map Prod.fst).contains k then d.map Prod.fst
      else d.map Prod.fst ++ [k] := by
  induction d with
  | nil => simp [dictInsert]
  | cons p d ih =>
      rw [dictInsert]
      by_cases hp : p.1 = k
      · rw [if_pos (by simp [hp])]
        simp [List.contains_cons, hp]
      · rw [if_neg (by simp [hp])]
        have hkp : (k == p.1) = false := by simp [Ne.symm hp]
        simp only [List.map_cons, List.contains_cons, hkp, Bool.false_or, ih]
        by_cases hc : (d.map Prod.fst).contains k = true
        · rw [if_pos hc, if_pos hc]
        · rw [if_neg hc, if_neg hc, List.cons_append]

lemma nodup_keys_dictInsert (d : List (String × Entry)) (k : String) (v : Entry)
    (h : (d.map Prod.fst).Nodup) : ((dictInsert d k v).map Prod.fst).Nodup := by
  rw [keys_dictInsert]
  by_cases hc : (d.map Prod.fst).contains k = true
  · rw [if_pos hc]
    exact h
  · rw [if_neg hc, List.nodup_append]
    refine ⟨h, List.nodup_singleton _, ?_⟩
    intro a ha hb
    simp only [List.mem_singleton] at hb
    subst hb
    exact hc (List.contains_iff_exists_mem_beq.mpr ⟨a, ha, by simp⟩)

lemma nodup_keys_buildFiltered_go (items : List RawItem)
    (acc : List (String × Entry)) (h : (acc.map Prod.fst).Nodup) :
    ((items.foldl
      (fun acc it => dictInsert acc (sanitize it.market_hash_name) (cleanEntry it))
      acc).map Prod.fst).Nodup := by
  induction items generalizing acc with
  | nil => exact h
  | cons it t ih =>
      simp only [List.foldl_cons]
      exact ih _ (nodup_keys_dictInsert _ _ _ h)

/-- C8: the cleaned odds mapping has pairwise-distinct keys, the value
stored under any key is the price and chance of the last raw entry (in
listing order) whose name sanitizes to that key, and two entries colliding
on the sanitized name "A" leave only the later entry's data. -/
theorem C8_last_write_wins (items : List RawItem) (k : String) :
    ((buildFiltered items).map Prod.fst).Nodup
    ∧ dictLookup (buildFiltered items) k
        = ((items.filter (fun it => sanitize it.market_hash_name == k)).getLast?).map cleanEntry
    ∧ buildFiltered [⟨"★A", 100, 5⟩, ⟨"A★", 200, 7⟩] = [("A", ⟨2, 7⟩)] := by
  refine ⟨nodup_keys_buildFiltered_go items [] (by simp), ?_, ?_⟩
  · rw [buildFiltered, buildFiltered_go, ← find?_reverse_eq]
    cases items.reverse.find? (fun it => sanitize it.market_hash_name == k) with
    | none => rfl
    | some it => rfl
  · have h1 : sanitize ("★A") = "A" := by decide
    have h2 : sanitize ("A★") = "A" := by decide
    simp only [buildFiltered, List.foldl_cons, List.foldl_nil, cleanEntry, h1, h2,
      formatPrice_exact, dictInsert]
    norm_num

/-! ### Reporting lemmas -/

lemma foldl_add_eq {α : Type} (f : α → ℚ) (l : List α) (c : ℚ) :
    l.foldl (fun a x => a + f x) c = c + (l.map f).sum := by
  induction l generalizing c with
  | nil => simp
  | cons x t ih => simp [ih, add_assoc]

lemma expected_return_eq (d : List (String × Entry)) :
    expected_return d = (d.map (fun p => p.2.chance / 100 * p.2.price)).sum := by
  unfold expected_return
  have h := foldl_add_eq (fun p : String × Entry => p.2.chance / 100 * p.2.price) d 0
  simpa using h

lemma profit_go (d : List (String × Entry)) (drops : List String)
    (h : ∀ n ∈ drops, (dictLookup d n).isSome) (c : ℚ) :
    drops.foldlM (fun acc item => (dictLookup d item).map (fun e => acc + e.price)) c
    = some (c + (drops.map (fun n => ((dictLookup d n).map Entry.price).getD 0)).sum) := by
  induction drops generalizing c with
  | nil => simp
  | cons n t ih =>
      obtain ⟨e, he⟩ := Option.isSome_iff_exists.mp (h n (by simp))
      rw [List.foldlM_cons, he]
      simp only [Option.map_some']
      show (t.foldlM (fun acc item => (dictLookup d item).map (fun e => acc + e.price))
        (c + e.price)) = _
      rw [ih (fun m hm => h m (by simp [hm]))]
      simp [he, add_assoc]

/-- C2: total earned is the sum of the drawn items' prices; total spent is
case price times trial count; expected return is the sum over the item set
of (chance/100)·price; expected profit and the return ratio are derived
from it; on the fixture {A: 1.00 at 90 %, B: 10.00 at 10 %} with case
price 2.00 this gives 1.90, −0.10 and 95.00 %. -/
theorem C2_reporting (d : List (String × Entry)) (drops : List String)
    (hkeys : ∀ n ∈ drops, (dictLookup d n).isSome) (case_price : ℚ) (count : Nat) :
    profit d drops
      = some ((drops.map (fun n => ((dictLookup d n).map Entry.price).getD 0)).sum)
    ∧ spendings case_price count = case_price * count
    ∧ expected_return d = (d.map (fun p => p.2.chance / 100 * p.2.price)).sum
    ∧ expected_profit d case_price = expected_return d - case_price
    ∧ return_ratio_percent d case_price = expected_return d / case_price * 100
    ∧ expected_return fixtureOdds = 19/10
    ∧ expected_profit fixtureOdds 2 = -(1/10)
    ∧ return_ratio_percent fixtureOdds 2 = 95 := by
  refine ⟨?_, rfl, expected_return_eq d, rfl, rfl, ?_, ?_, ?_⟩
  · unfold profit
    rw [profit_go d drops hkeys 0]
    simp
  · norm_num [expected_return_eq, fixtureOdds]
  · norm_num [expected_profit, expected_return_eq, fixtureOdds]
  · norm_num [return_ratio_percent, expected_return_eq, fixtureOdds]

/-- Witness for C2 at the fixture odds and the two-trial drop list
[A, B]: earned 11.00, and the fixture expectation facts. -/
theorem C2_reporting_witness :
    profit fixtureOdds [("A" : String), "B"] = some 11
    ∧ spendings 2 1000 = 2 * 1000
    ∧ expected_return fixtureOdds = 19/10
    ∧ expected_profit fixtureOdds 2 = -(1/10)
    ∧ return_ratio_percent fixtureOdds 2 = 95 := by
  have h := C2_reporting fixtureOdds [("A" : String), "B"] (by decide) 2 1000
  refine ⟨?_, h.2.1, h.2.2.2.2.2.1, h.2.2.2.2.2.2.1, h.2.2.2.2.2.2.2⟩
  rw [h.1]
  have hbAB : (("A" : String) == "B") = false := by decide
  have hbAA : (("A" : String) == "A") = true := by decide
  have hbBA : (("B" : String) == "A") = false := by decide
  have hbBB : (("B" : String) == "B") = true := by decide
  norm_num [dictLookup, fixtureOdds, List.find?, hbAB, hbAA, hbBA, hbBB]

/-! ### Rounding placement (C9) -/

/-- Specification-side variant of `cleanEntry` with the raw, unrounded
decimal price (from the spec's words: intermediate values unrounded). -/
def cleanEntryExact (it : RawItem) : Entry :=
  { price := (it.fixed_price : ℚ) / 100, chance := it.chance_percent }

/-- Specification-side variant of `buildFiltered` holding unrounded
prices. -/
def buildFilteredExact (items : List RawItem) : List (String × Entry) :=
  items.foldl
    (fun acc it => dictInsert acc (sanitize it.market_hash_name) (cleanEntryExact it))
    []

lemma cleanEntry_eq_exact : cleanEntry = cleanEntryExact := by
  funext it
  unfold cleanEntry cleanEntryExact
  rw [formatPrice_exact]

/-- C9: the two-decimal formatting applied while cleaning is the identity
on integer cents, so the cleaned mapping (and hence every intermediate
sum computed from it) carries the exact unrounded values, and `round2`
is applied exactly once, in the output summary fields. -/
theorem C9_rounding_only_at_output (cents : ℤ) (items : List RawItem)
    (d : List (String × Entry)) (case_price p sp : ℚ) :
    formatPrice cents = (cents : ℚ) / 100
    ∧ buildFiltered items = buildFilteredExact items
    ∧ summary_total_spent sp = round2 sp
    ∧ summary_total_earned p = round2 p
    ∧ summary_net_profit p sp = round2 (p - sp)
    ∧ summary_expected_return d = round2 (expected_return d)
    ∧ summary_expected_profit d case_price = round2 (expected_profit d case_price)
    ∧ summary_return_ratio_percent d case_price
        = round2 (return_ratio_percent d case_price) := by
  refine ⟨formatPrice_exact cents, ?_, rfl, rfl, rfl, rfl, rfl, rfl⟩
  unfold buildFiltered buildFilteredExact
  rw [cleanEntry_eq_exact]

/-! ### Weighted-sampling lemmas (C1) -/

lemma simulate_eq_map (ws us : List ℚ) :
    simulate ws us = us.map (choiceIdx ws) := by
  induction us with
  | nil => rfl
  | cons u t ih => simp [simulate, ih]

lemma choiceIdx_interval (ws : List ℚ) (hnn : ∀ w ∈ ws, 0 ≤ w)
    (i : Nat) (hi : i < ws.length) (x : ℚ) (hx : 0 ≤ x) :
    choiceIdx ws x = i ↔ (ws.take i).sum ≤ x ∧ x < (ws.take (i + 1)).sum := by
  induction ws generalizing i x with
  | nil => exact absurd hi (by simp)
  | cons w t ih =>
      have hw : 0 ≤ w := hnn w (by simp)
      cases i with
      | zero =>
          rw [choiceIdx]
          by_cases hxw : x < w
          · simp [hxw, hx]
          · simp [hxw, hx]
      | succ i =>
          rw [choiceIdx]
          by_cases hxw : x < w
          · rw [if_pos hxw]
            have hsum : 0 ≤ (t.take i).sum :=
              List.sum_nonneg fun y hy =>
                hnn y (by simp [List.mem_of_mem_take hy])
            constructor
            · intro h0
              exact absurd h0 (by omega)
            · rintro ⟨h1, _⟩
              rw [List.take_succ_cons, List.sum_cons] at h1
              linarith
          · rw [if_neg hxw]
            have hx' : 0 ≤ x - w := by linarith [not_lt.mp hxw]
            have hi' : i < t.length := by simpa using hi
            have hnn' : ∀ y ∈ t, 0 ≤ y := fun y hy => hnn y (by simp [hy])
            rw [List.take_succ_cons, List.take_succ_cons, List.sum_cons, List.sum_cons]
            have hiff := ih hnn' i hi' (x - w) hx'
            constructor
            · intro h0
              have h0' : choiceIdx t (x - w) = i := by omega
              obtain ⟨h1, h2⟩ := hiff.mp h0'
              constructor <;> linarith
            · rintro ⟨h1, h2⟩
              have : choiceIdx t (x - w) = i :=
                hiff.mpr ⟨by linarith, by linarith⟩
              omega

/-- C1: a single draw selects item `i` exactly when the uniform value falls
in the interval of length `ws[i]` starting at the cumulative weight before
`i` (so each item's per-draw probability is its weight over the total
weight); the simulation maps each of the K fresh uniform draws through
that same single-draw selection (independent, identically-distributed
trials with replacement); for the fixture A (weight 90), B (weight 10) the
per-draw probabilities are 9/10 ∈ [0.87, 0.93] and 1/10 ∈ [0.07, 0.13], the
expected empirical frequencies over any number of trials. -/
theorem C1_weighted_sampling (ws : List ℚ) (hnn : ∀ w ∈ ws, 0 ≤ w)
    (i : Nat) (hi : i < ws.length) (x : ℚ) (hx : 0 ≤ x) (us : List ℚ) :
    (choiceIdx ws x = i ↔ (ws.take i).sum ≤ x ∧ x < (ws.take (i + 1)).sum)
    ∧ (ws.take (i + 1)).sum = (ws.take i).sum + ws[i]
    ∧ simulate ws us = us.map (choiceIdx ws)
    ∧ ([(90 : ℚ), 10].take 1).sum / [(90 : ℚ), 10].sum = 9/10
    ∧ (87 : ℚ)/100 ≤ 9/10 ∧ (9 : ℚ)/10 ≤ 93/100
    ∧ ([(90 : ℚ), 10].sum - ([(90 : ℚ), 10].take 1).sum) / [(90 : ℚ), 10].sum = 1/10
    ∧ (7 : ℚ)/100 ≤ 1/10 ∧ (1 : ℚ)/10 ≤ 13/100 := by
  refine ⟨choiceIdx_interval ws hnn i hi x hx, List.sum_take_succ ws i hi,
    simulate_eq_map ws us, by norm_num, by norm_num, by norm_num, by norm_num,
    by norm_num, by norm_num⟩

/-- Witness for C1 at weights [90, 10], item 0, uniform draw 45, and the
two-draw stream [45, 95]. -/
theorem C1_weighted_sampling_witness :
    (choiceIdx [(90 : ℚ), 10] 45 = 0
      ↔ ([(90 : ℚ), 10].take 0).sum ≤ 45 ∧ (45 : ℚ) < ([(90 : ℚ), 10].take 1).sum)
    ∧ ([(90 : ℚ), 10].take 1).sum = ([(90 : ℚ), 10].take 0).sum + [(90 : ℚ), 10][0]
    ∧ simulate [(90 : ℚ), 10] [45, 95] = [(45 : ℚ), 95].map (choiceIdx [(90 : ℚ), 10])
    ∧ ([(90 : ℚ), 10].take 1).sum / [(90 : ℚ), 10].sum = 9/10
    ∧ (87 : ℚ)/100 ≤ 9/10 ∧ (9 : ℚ)/10 ≤ 93/100
    ∧ ([(90 : ℚ), 10].sum - ([(90 : ℚ), 10].take 1).sum) / [(90 : ℚ), 10].sum = 1/10
    ∧ (7 : ℚ)/100 ≤ 1/10 ∧ (1 : ℚ)/10 ≤ 13/100 :=
  C1_weighted_sampling [(90 : ℚ), 10] (by norm_num) 0 (by norm_num) 45 (by norm_num)
    [(45 : ℚ), 95]

end SkinProb
